import Mathlib

/-!
Verification of the LoopAudioTool core (src/main.js) against its
natural-language specification.

Modelling conventions for the shallow embedding:
* JavaScript numbers that carry audio samples are modelled as rationals.
  Every arithmetic operation the quantizer performs on a sample that is a
  32-bit float value is exact in IEEE double precision (clamping, and
  multiplication of a 24-bit significand by 32767 or 32768), so rational
  arithmetic is a faithful model of those code paths.  Where NaN is
  observable (the PCM quantizer) a sample is an `Option ℚ`, `none`
  standing for NaN.  The one inexact code path is the multi-channel
  downmix accumulation, which rounds in double and float32 precision;
  that rounding is modelled explicitly by `rnd` and `downmixCellFloat`
  for the claim it decides (C5).
* Byte buffers are lists of naturals below 256; the sequential DataView
  writes of the WAV encoder become list concatenation in offset order.
* The asynchronous batch loop awaits each file fully before the next, so
  it is modelled as a left-to-right `List.map`; the try/catch around each
  file is folded into the per-file result.
-/

namespace LoopAudio

/-- JavaScript zero-crossing test on an adjacent sample pair, from
src/main.js line 23:
`s1 === 0 || s2 === 0 || (s1 > 0 && s2 < 0) || (s1 < 0 && s2 > 0)`. -/
def isCross (s1 s2 : ℚ) : Bool :=
  s1 == 0 || s2 == 0 || (decide (s1 > 0) && decide (s2 < 0)) ||
    (decide (s1 < 0) && decide (s2 > 0))

/-- The crossing test at pair index `i` of a sample list (indices in the
scan window are always in bounds, so the default value is never read). -/
def crossAtPair (samples : List ℚ) (i : ℤ) : Bool :=
  isCross (samples.getD i.toNat 0) (samples.getD (i.toNat + 1) 0)

/-- Auxiliary fuel-indexed builder for the ascending loop index list:
`intRangeAux a m` is the list `a, a+1, ..., a+m-1`. -/
def intRangeAux (a : ℤ) : ℕ → List ℤ
  | 0 => []
  | m + 1 => a :: intRangeAux (a + 1) m

/-- The list of integers from `a` to `b` inclusive (empty when `b < a`),
modelling the ascending `for` loop of `findNearestZeroCross`. -/
def intRange (a b : ℤ) : List ℤ :=
  intRangeAux a (b + 1 - a).toNat

/-- The loop updates the best candidate only on strictly smaller distance.
The initial best distance Infinity is modelled by `none`, and every finite
distance is below Infinity. -/
def betterDist (d : ℤ) : Option ℤ → Bool
  | none => true
  | some bd => decide (d < bd)

/-- One iteration of the scan loop of `findNearestZeroCross`
(src/main.js lines 19-31).  The state is `(bestIndex, bestDist)`. -/
def zcStep (samples : List ℚ) (targetIndex : ℤ) (b : ℤ × Option ℤ) (i : ℤ) :
    ℤ × Option ℤ :=
  if crossAtPair samples i then
    if betterDist |i - targetIndex| b.2 then (i, some |i - targetIndex|) else b
  else b

/-- Lower edge of the scan window, `Math.max(0, targetIndex - searchRadius)`. -/
def zcWindowLo (targetIndex searchRadius : ℤ) : ℤ :=
  max 0 (targetIndex - searchRadius)

/-- Upper edge of the scan window, `Math.min(n - 2, targetIndex + searchRadius)`. -/
def zcWindowHi (n : ℕ) (targetIndex searchRadius : ℤ) : ℤ :=
  min ((n : ℤ) - 2) (targetIndex + searchRadius)

/-- Model of `findNearestZeroCross(samples, targetIndex, searchRadius)`
from src/main.js lines 9-33. -/
def findNearestZeroCross (samples : List ℚ) (targetIndex searchRadius : ℤ) : ℤ :=
  if samples.length < 2 then targetIndex
  else
    ((intRange (zcWindowLo targetIndex searchRadius)
        (zcWindowHi samples.length targetIndex searchRadius)).foldl
      (zcStep samples targetIndex) (targetIndex, none)).1

/-- Statement that the scan window contains at least one zero crossing. -/
def hasCrossInWindow (samples : List ℚ) (targetIndex searchRadius : ℤ) : Prop :=
  ∃ i, zcWindowLo targetIndex searchRadius ≤ i ∧
    i ≤ zcWindowHi samples.length targetIndex searchRadius ∧
    crossAtPair samples i = true

/-- Invariant of the scan loop: the best pair is still the initial
`(target, Infinity)` or records a crossing inside the window together
with its exact distance to the target. -/
def zcInv (s : List ℚ) (t lo hi : ℤ) (b : ℤ × Option ℤ) : Prop :=
  b = (t, none) ∨
    (lo ≤ b.1 ∧ b.1 ≤ hi ∧ crossAtPair s b.1 = true ∧
      b.2 = some |b.1 - t|)

/-- Truncation toward zero of a rational number: the integer part taken by
the ToIntegerOrInfinity step of a JavaScript Int16Array store. -/
def qTrunc (q : ℚ) : ℤ := if 0 ≤ q then ⌊q⌋ else -⌊-q⌋

/-- Reinterpretation of an integer as a signed 16-bit value: the wrap-around
part of the ToInt16 conversion performed by an Int16Array store. -/
def toInt16 (z : ℤ) : ℤ :=
  if z % 65536 < 32768 then z % 65536 else z % 65536 - 65536

/-- The clamp `Math.max(-1, Math.min(1, s))` from src/main.js lines 60 and
120; `none` is NaN, which both `Math.min` and `Math.max` propagate. -/
def jsClamp (s : Option ℚ) : Option ℚ :=
  match s with
  | none => none
  | some x => some (max (-1) (min 1 x))

/-- The PCM quantizer `s < 0 ? s * 0x8000 : s * 0x7fff` followed by the
Int16Array store, from src/main.js lines 60-61 and 120-121.  A NaN sample
fails the `s < 0` test, stays NaN through the multiplication, and the
store converts NaN to 0. -/
def quantizeSample (s : Option ℚ) : ℤ :=
  match jsClamp s with
  | none => 0
  | some c => toInt16 (qTrunc (if c < 0 then c * 32768 else c * 32767))

/-- The wording of claim C3: clamp the sample to [-1, 1], then multiply
negative values by 32768 and non-negative values by 32767, truncating to a
16-bit signed integer. -/
def quantizeSpecC3 (x : ℚ) : ℤ :=
  if max (-1) (min 1 x) < 0 then qTrunc (max (-1) (min 1 x) * 32768)
  else qTrunc (max (-1) (min 1 x) * 32767)

/-- Model of `extractMonoSamples(buffer, startSample, endSample)` from
src/main.js lines 36-53, over the per-channel sample lists.  `subarray`
becomes drop/take; the single-channel `mono.set(ch)` leaves the
Float32Array zero fill in place past the end of a clamped subarray; in
the multi-channel branch the accumulation
`mono[i] += data[i] / numChannels` runs channel-major, which per output
position is the left fold over the channels in channel order.  Claims
about this function restrict to index ranges that are in bounds, where
the JavaScript out-of-bounds read (undefined, which would turn the
accumulator NaN) cannot occur, so samples stay plain rationals here.
The multi-channel accumulation below is exact rational arithmetic, the
ideal value of the average; the program rounds the double quotient and
every Float32Array partial sum, which `downmixCellFloat` models
faithfully and which lets the stored average drift off the ideal value
for some inputs (the C5 drift counterexample).  The single-channel
branch, the only one claim C6 relies on, is a bit-exact copy in both
the program (`Float32Array.set`) and this model. -/
def extractMonoSamples (channels : List (List ℚ)) (startSample endSample : ℕ) :
    List ℚ :=
  let len := endSample - startSample
  if channels.length = 1 then
    let ch := ((channels.getD 0 []).drop startSample).take len
    ch ++ List.replicate (len - ch.length) 0
  else
    (List.range len).map fun i =>
      channels.foldl
        (fun acc c => acc + ((c.drop startSample).take len).getD i 0 /
          (channels.length : ℚ)) 0

/-- Round a positive scaled significand to the nearest integer, ties to
even: the rounding rule of IEEE 754 round-to-nearest. -/
def roundNearestEven (n : ℚ) : ℤ :=
  if n - ⌊n⌋ < 1 / 2 then ⌊n⌋
  else if 1 / 2 < n - ⌊n⌋ then ⌊n⌋ + 1
  else if 2 ∣ ⌊n⌋ then ⌊n⌋ else ⌊n⌋ + 1

/-- Round to nearest at `p` significant bits, ties to even, with unbounded
exponent range: on the normal range this is exactly the IEEE 754 binary64
rounding for `p = 53` and the binary32 rounding for `p = 24`.  Every value
of the drift computation in the C5 counterexample is normal in both
formats, far from overflow and subnormals, so the exponent range never
matters there. -/
def rnd (p : ℕ) (x : ℚ) : ℚ :=
  if x = 0 then 0
  else
    (if x < 0 then (-1 : ℚ) else 1) *
      (roundNearestEven (|x| / 2 ^ (Int.log 2 |x| - ((p : ℤ) - 1))) : ℚ) *
      2 ^ (Int.log 2 |x| - ((p : ℤ) - 1))

/-- One output cell of the multi-channel branch of `extractMonoSamples`
under the program's real arithmetic.  The statement
`mono[i] += data[i] / numChannels` at src/main.js line 48 reads the
float32 sample into a double exactly, divides by the channel count in
double precision (`rnd 53`), adds the double read of the float32
accumulator in double precision (`rnd 53`), and the store back into the
Float32Array rounds the sum to float32 (`rnd 24`).  The fold over the
per-channel values mirrors the channel-major loop at one fixed output
position. -/
def downmixCellFloat (numChannels : ℕ) (values : List ℚ) : ℚ :=
  values.foldl
    (fun m v => rnd 24 (rnd 53 (m + rnd 53 (v / (numChannels : ℚ))))) 0

/-- Bytes of a tag string as written by `writeString` via `charCodeAt` and
`setUint8` (which stores modulo 256); the four tags are plain ASCII. -/
def asciiBytes (s : String) : List ℕ := s.data.map fun c => c.toNat % 256

/-- Little-endian bytes stored by `DataView.setUint16` (value modulo 2^16). -/
def le16 (v : ℕ) : List ℕ := [v % 256, v / 256 % 256]

/-- Little-endian bytes stored by `DataView.setUint32` (value modulo 2^32). -/
def le32 (v : ℕ) : List ℕ :=
  [v % 256, v / 256 % 256, v / 65536 % 256, v / 16777216 % 256]

/-- Little-endian bytes stored by `DataView.setInt16`: the low sixteen bits
of the two-complement representation. -/
def int16le (z : ℤ) : List ℕ := le16 (z % 65536).toNat

/-- Model of `monoFloatToWavBlob(samples, sampleRate)` from src/main.js
lines 56-96, as the byte stream of the produced Blob.  The DataView
writes are sequential in offset order over a buffer of exactly the
emitted size, so the model is the concatenation of the fields in write
order; the writer is a pure function of its two arguments, which is the
byte-for-byte determinism part of claim C4. -/
def monoFloatToWavBytes (samples : List ℚ) (sampleRate : ℕ) : List ℕ :=
  let pcm16 := samples.map fun s => quantizeSample (some s)
  asciiBytes "RIFF" ++ le32 (36 + pcm16.length * 2) ++
    asciiBytes "WAVE" ++ asciiBytes "fmt " ++ le32 16 ++ le16 1 ++ le16 1 ++
    le32 sampleRate ++ le32 (sampleRate * 2) ++ le16 2 ++ le16 16 ++
    asciiBytes "data" ++ le32 (pcm16.length * 2) ++
    (pcm16.map int16le).flatten

/-- Decoded audio as delivered by the opaque decoder service: a sample
rate and one sample list per channel. -/
structure DecodedAudio where
  sampleRate : ℕ
  channels : List (List ℚ)

/-- Frame count of a decoded buffer, `buffer.length` of an AudioBuffer. -/
def DecodedAudio.frameCount (b : DecodedAudio) : ℕ :=
  (b.channels.headD []).length

/-- One input file of the batch: its name and the outcome of the opaque
decode step; `Except.error` carries the message of the exception that
`decodeAudioData` rejects with. -/
structure FileInput where
  name : String
  decoded : Except String DecodedAudio

/-- The two opaque encoder services of the hosting page; `none` models
the library script not being loaded, detected by the `typeof` probes in
src/main.js lines 100 and 111. -/
structure Env where
  oggEncoder : Option (List ℚ → ℕ → ℤ → List ℕ)
  mp3Encoder : Option (List ℤ → ℕ → List ℕ)

/-- The per-batch parameters assembled by the click handler. -/
structure Params where
  startSec : ℚ
  endSec : ℚ
  searchRadius : ℤ
  outFormat : String
  oggQuality : ℤ

/-- Raw clamped sample index (src/main.js lines 144-151):
`Math.max(0, Math.min(buffer.length - 1, Math.floor(sec * sr)))`. -/
def rawIndex (buffer : DecodedAudio) (sec : ℚ) : ℤ :=
  max 0 (min ((buffer.frameCount : ℤ) - 1) ⌊sec * (buffer.sampleRate : ℚ)⌋)

/-- The zero-cross adjusted start and end indices (src/main.js lines
153-155), both searched on channel 0 as the reference signal. -/
def adjustedRange (buffer : DecodedAudio) (p : Params) : ℤ × ℤ :=
  (findNearestZeroCross (buffer.channels.headD [])
      (rawIndex buffer p.startSec) p.searchRadius,
   findNearestZeroCross (buffer.channels.headD [])
      (rawIndex buffer p.endSec) p.searchRadius)

/-- The range-rejection log line of src/main.js line 158; it names the
file but contains no further data. -/
def rejectLine (name : String) : String :=
  "  [エラー] " ++ name ++ ": ゼロクロス調整後に終点が始点より前になりました。"

/-- The unsupported-format log line of src/main.js line 181. -/
def unsupportedLine (fmt : String) : String :=
  "  [エラー] 未対応のフォーマット: " ++ fmt

/-- Message of the exception thrown when the Vorbis encoder is absent. -/
def oggMissingMsg : String :=
  "OggVorbisEncoder が読み込まれていません。ライブラリ読み込みを確認してください。"

/-- Message of the exception thrown when the MP3 encoder is absent. -/
def mp3MissingMsg : String :=
  "lamejs が読み込まれていません。ライブラリ読み込みを確認してください。"

/-- The catch-clause log line of src/main.js line 235. -/
def caughtLine (name msg : String) : String :=
  "  [エラー] " ++ name ++ ": " ++ msg

/-- The regex replace step of src/main.js line 189: strip a final dot
followed by one or more characters none of which is a dot or a slash;
otherwise keep the name unchanged. -/
def stripLastDotSuffix (cs : List Char) : List Char :=
  let r := cs.reverse
  let keep := r.takeWhile fun c => c != '.' && c != '/'
  match r.drop keep.length with
  | '.' :: rest => if keep.isEmpty then cs else rest.reverse
  | _ => cs

/-- The output filename: stripped base, fixed suffix, format extension. -/
def outputName (name ext2 : String) : String :=
  String.mk (stripLastDotSuffix name.data) ++ "_loop" ++ ext2

/-- What one `processSingleFile` call does, up to the batch-level catch:
either a download of the produced bytes or an error line logged followed
by an early return without output. -/
inductive ProcOutcome where
  | downloaded (downloadName : String) (bytes : List ℕ)
  | loggedError (line : String)
deriving DecidableEq

/-- Model of `processSingleFile(file, params)` from src/main.js lines
134-194.  Decode failures and missing-encoder probes throw, modelled as
`Except.error`; the range rejection and the unsupported format log a
line and return without producing output. -/
def processSingleFile (env : Env) (file : FileInput) (p : Params) :
    Except String ProcOutcome :=
  match file.decoded with
  | .error msg => .error msg
  | .ok buffer =>
    let startIdx := (adjustedRange buffer p).1
    let endIdx := (adjustedRange buffer p).2
    if endIdx ≤ startIdx then .ok (.loggedError (rejectLine file.name))
    else
      let mono := extractMonoSamples buffer.channels startIdx.toNat endIdx.toNat
      if p.outFormat = "ogg" then
        match env.oggEncoder with
        | none => .error oggMissingMsg
        | some enc => .ok (.downloaded (outputName file.name ".ogg")
            (enc mono buffer.sampleRate p.oggQuality))
      else if p.outFormat = "wav" then
        .ok (.downloaded (outputName file.name ".wav")
          (monoFloatToWavBytes mono buffer.sampleRate))
      else if p.outFormat = "mp3" then
        match env.mp3Encoder with
        | none => .error mp3MissingMsg
        | some enc => .ok (.downloaded (outputName file.name ".mp3")
            (enc (mono.map fun x => quantizeSample (some x)) buffer.sampleRate))
      else .ok (.loggedError (unsupportedLine p.outFormat))

/-- Per-file result as aggregated by the batch loop. -/
inductive RunResult where
  | success (downloadName : String) (bytes : List ℕ)
  | failure (line : String)
deriving DecidableEq

/-- One iteration of the batch loop body (src/main.js lines 230-237):
`await processSingleFile` inside `try`, with `catch` turning an exception
into a logged error line naming the file. -/
def runOneCaught (env : Env) (p : Params) (file : FileInput) : RunResult :=
  match processSingleFile env file p with
  | .ok (.downloaded n b) => .success n b
  | .ok (.loggedError line) => .failure line
  | .error msg => .failure (caughtLine file.name msg)

/-- The sequential `for (const file of files)` loop: one result per file,
in input order; each file is awaited fully before the next begins. -/
def runBatch (env : Env) (files : List FileInput) (p : Params) :
    List RunResult :=
  files.map (runOneCaught env p)

/-- The clamp `Math.min(10, Math.max(0, q))` applied after coercing an
unparseable (NaN) quality to the default 3, src/main.js lines 222-223. -/
def effectiveQuality (q : Option ℤ) : ℤ := min 10 (max 0 (q.getD 3))

/-- JavaScript `endSec > startSec` where either operand may be NaN
(`none` here): every comparison against NaN is false. -/
def jsGt : Option ℚ → Option ℚ → Bool
  | some a, some b => decide (b < a)
  | _, _ => false

/-- The runBtn click handler (src/main.js lines 197-239): global
validation first, then the sequential per-file loop.  A `none` result
means the handler returned before touching any file. -/
def runHandler (env : Env) (files : List FileInput)
    (startSecP endSecP : Option ℚ) (radius : ℤ) (fmt : String)
    (qualityP : Option ℤ) : Option (List RunResult) :=
  if files.isEmpty then none
  else if jsGt endSecP startSecP = false then none
  else some (runBatch env files
    ⟨startSecP.getD 0, endSecP.getD 0, radius, fmt,
      effectiveQuality qualityP⟩)

example : findNearestZeroCross [1, -1, -1, 1, 1, -1] 2 2 = 2 := by decide
example : findNearestZeroCross [1, 1, 1, 1] 1 4 = 1 := by decide
example : findNearestZeroCross [5] 7 4 = 7 := by decide
example : findNearestZeroCross [1, -1, 1, 1] 3 4 = 1 := by decide
example : extractMonoSamples [[1, 2, 3]] 1 3 = [2, 3] := by decide
example : (monoFloatToWavBytes [] 8000).length = 44 := by decide
example : outputName "song.flac" ".wav" = "song_loop.wav" := by decide
example : outputName "noext" ".ogg" = "noext_loop.ogg" := by decide

theorem mem_intRangeAux {a k : ℤ} {m : ℕ} :
    k ∈ intRangeAux a m ↔ a ≤ k ∧ k < a + m := by
  induction m generalizing a with
  | zero =>
    simp only [intRangeAux, List.not_mem_nil, false_iff]
    omega
  | succ m ih =>
    simp only [intRangeAux, List.mem_cons, ih]
    omega

theorem mem_intRange {a b k : ℤ} : k ∈ intRange a b ↔ a ≤ k ∧ k ≤ b := by
  rw [intRange, mem_intRangeAux]
  omega

theorem intRangeAux_append (a : ℤ) (m1 m2 : ℕ) :
    intRangeAux a (m1 + m2) = intRangeAux a m1 ++ intRangeAux (a + m1) m2 := by
  induction m1 generalizing a with
  | zero => simp [intRangeAux]
  | succ m ih =>
    have h1 : m + 1 + m2 = m + m2 + 1 := by omega
    rw [h1]
    simp only [intRangeAux, List.cons_append]
    rw [ih (a + 1)]
    have h2 : a + 1 + (m : ℤ) = a + ((m + 1 : ℕ) : ℤ) := by push_cast; ring
    rw [h2]

theorem intRange_eq_append {a b c : ℤ} (h1 : a ≤ c) (h2 : c ≤ b + 1) :
    intRange a b = intRange a (c - 1) ++ intRange c b := by
  have hm : (b + 1 - a).toNat = (c - 1 + 1 - a).toNat + (b + 1 - c).toNat := by
    omega
  rw [intRange, hm, intRangeAux_append, intRange, intRange]
  congr 2
  omega

theorem intRange_cons {a b : ℤ} (h : a ≤ b) :
    intRange a b = a :: intRange (a + 1) b := by
  have h1 : (b + 1 - a).toNat = (b + 1 - (a + 1)).toNat + 1 := by omega
  rw [intRange, h1, intRangeAux]
  rfl

theorem zcStep_of_not_cross {s : List ℚ} {t : ℤ} {b : ℤ × Option ℤ} {i : ℤ}
    (h : crossAtPair s i = false) : zcStep s t b i = b := by
  simp [zcStep, h]

theorem foldl_zcStep_of_no_cross (s : List ℚ) (t : ℤ) (L : List ℤ)
    (b : ℤ × Option ℤ) (h : ∀ i ∈ L, crossAtPair s i = false) :
    L.foldl (zcStep s t) b = b := by
  induction L generalizing b with
  | nil => rfl
  | cons x xs ih =>
    rw [List.foldl_cons, zcStep_of_not_cross (h x (List.mem_cons_self _ _))]
    exact ih b fun i hi => h i (List.mem_cons_of_mem _ hi)

theorem zcStep_snd_isSome {s : List ℚ} {t : ℤ} {b : ℤ × Option ℤ} {i : ℤ}
    (hb : b.2.isSome) : (zcStep s t b i).2.isSome := by
  rw [zcStep]
  split
  · split
    · rfl
    · exact hb
  · exact hb

theorem zcStep_cross_snd_isSome {s : List ℚ} {t : ℤ} {b : ℤ × Option ℤ} {i : ℤ}
    (hc : crossAtPair s i = true) : (zcStep s t b i).2.isSome := by
  rw [zcStep, if_pos hc]
  split
  case isTrue => rfl
  case isFalse hf =>
    cases hb : b.2 with
    | none => rw [hb] at hf; exact absurd rfl hf
    | some bd => simp [hb]

theorem foldl_zcStep_snd_isSome (s : List ℚ) (t : ℤ) (L : List ℤ)
    (b : ℤ × Option ℤ) (hb : b.2.isSome) :
    (L.foldl (zcStep s t) b).2.isSome := by
  induction L generalizing b with
  | nil => exact hb
  | cons x xs ih => exact ih _ (zcStep_snd_isSome hb)

theorem foldl_zcStep_cross_isSome (s : List ℚ) (t : ℤ) (L : List ℤ)
    (b : ℤ × Option ℤ) (i : ℤ) (hi : i ∈ L)
    (hc : crossAtPair s i = true) :
    (L.foldl (zcStep s t) b).2.isSome := by
  obtain ⟨l1, l2, rfl⟩ := List.append_of_mem hi
  rw [List.foldl_append, List.foldl_cons]
  exact foldl_zcStep_snd_isSome _ _ _ _ (zcStep_cross_snd_isSome hc)

theorem zcStep_inv {s : List ℚ} {t lo hi : ℤ} {b : ℤ × Option ℤ} {i : ℤ}
    (hlo : lo ≤ i) (hhi : i ≤ hi) (hb : zcInv s t lo hi b) :
    zcInv s t lo hi (zcStep s t b i) := by
  rw [zcStep]
  split
  case isTrue hc =>
    split
    case isTrue => exact Or.inr ⟨hlo, hhi, hc, rfl⟩
    case isFalse => exact hb
  case isFalse => exact hb

theorem foldl_zcStep_inv (s : List ℚ) (t lo hi : ℤ) (L : List ℤ)
    (b : ℤ × Option ℤ) (hL : ∀ i ∈ L, lo ≤ i ∧ i ≤ hi)
    (hb : zcInv s t lo hi b) :
    zcInv s t lo hi (L.foldl (zcStep s t) b) := by
  induction L generalizing b with
  | nil => exact hb
  | cons x xs ih =>
    refine ih _ (fun i hi => hL i (List.mem_cons_of_mem _ hi)) ?_
    exact zcStep_inv (hL x (List.mem_cons_self _ _)).1
      (hL x (List.mem_cons_self _ _)).2 hb

theorem zcStep_keep {s : List ℚ} {t : ℤ} {b : ℤ × Option ℤ} {i D : ℤ}
    (hb : b.2 = some D)
    (hD : crossAtPair s i = true → D ≤ |i - t|) :
    zcStep s t b i = b := by
  rw [zcStep]
  split
  case isTrue hc =>
    rw [if_neg]
    rw [hb]
    simp only [betterDist, decide_eq_true_eq, not_lt]
    exact hD hc
  case isFalse => rfl

theorem foldl_zcStep_keep (s : List ℚ) (t D : ℤ) (L : List ℤ)
    (b : ℤ × Option ℤ) (hb : b.2 = some D)
    (h : ∀ i ∈ L, crossAtPair s i = true → D ≤ |i - t|) :
    L.foldl (zcStep s t) b = b := by
  induction L with
  | nil => rfl
  | cons x xs ih =>
    rw [List.foldl_cons, zcStep_keep hb (h x (List.mem_cons_self _ _))]
    exact ih fun i hi hc => h i (List.mem_cons_of_mem _ hi) hc

/-- C1: for every sample sequence, integer target and radius,
`findNearestZeroCross` returns an index inside the scan window
`[max(0, target - r), min(n - 2, target + r)]` whenever that window
contains a zero crossing, and returns the target unchanged whenever the
window contains no crossing or the sequence has fewer than two samples. -/
theorem C1_zero_cross_window (samples : List ℚ) (t r : ℤ) :
    (hasCrossInWindow samples t r →
      zcWindowLo t r ≤ findNearestZeroCross samples t r ∧
        findNearestZeroCross samples t r ≤ zcWindowHi samples.length t r) ∧
    ((samples.length < 2 ∨ ¬ hasCrossInWindow samples t r) →
      findNearestZeroCross samples t r = t) := by
  constructor
  · rintro ⟨i, hlo, hhi, hc⟩
    obtain ⟨hi0, -⟩ := max_le_iff.mp hlo
    obtain ⟨hin, -⟩ := le_min_iff.mp hhi
    have hn : ¬ samples.length < 2 := by omega
    rw [findNearestZeroCross, if_neg hn]
    have hsome := foldl_zcStep_cross_isSome samples t
      (intRange (zcWindowLo t r) (zcWindowHi samples.length t r))
      (t, none) i (mem_intRange.mpr ⟨hlo, hhi⟩) hc
    have hinv := foldl_zcStep_inv samples t
      (zcWindowLo t r) (zcWindowHi samples.length t r)
      (intRange (zcWindowLo t r) (zcWindowHi samples.length t r))
      (t, none) (fun j hj => mem_intRange.mp hj) (Or.inl rfl)
    rcases hinv with hinv | ⟨h1, h2, -, -⟩
    · rw [hinv] at hsome
      simp at hsome
    · exact ⟨h1, h2⟩
  · rintro (hn | hnc)
    · rw [findNearestZeroCross, if_pos hn]
    · by_cases hn : samples.length < 2
      · rw [findNearestZeroCross, if_pos hn]
      · rw [findNearestZeroCross, if_neg hn,
          foldl_zcStep_of_no_cross samples t _ _ ?_]
        intro i him
        obtain ⟨h1, h2⟩ := mem_intRange.mp him
        cases hcb : crossAtPair samples i with
        | false => rfl
        | true => exact absurd ⟨i, h1, h2, hcb⟩ hnc

theorem C1_zero_cross_window_witness :
    (zcWindowLo 0 0 ≤ findNearestZeroCross [1, -1, 1] 0 0 ∧
      findNearestZeroCross [1, -1, 1] 0 0 ≤
        zcWindowHi (List.length [1, -1, 1]) 0 0) ∧
    findNearestZeroCross [5] 7 4 = 7 :=
  ⟨(C1_zero_cross_window [1, -1, 1] 0 0).1 ⟨0, by decide, by decide, by decide⟩,
   (C1_zero_cross_window [5] 7 4).2 (Or.inl (by decide))⟩

/-- C2 as literally stated is false: in `[1, -1, -1, 1, 1, -1]` with target
2 and radius 2, the pair indices 0 and 4 are both zero crossings at equal
absolute distance 2 from the target, yet the scan returns 2 (a third,
strictly closer crossing), not the lower index 0. -/
theorem C2_tie_counterexample :
    crossAtPair [1, -1, -1, 1, 1, -1] 0 = true ∧
    crossAtPair [1, -1, -1, 1, 1, -1] 4 = true ∧
    zcWindowLo 2 2 ≤ 0 ∧
    (4 : ℤ) ≤ zcWindowHi (List.length ([1, -1, -1, 1, 1, -1] : List ℚ)) 2 2 ∧
    |(0 : ℤ) - 2| = |(4 : ℤ) - 2| ∧
    findNearestZeroCross [1, -1, -1, 1, 1, -1] 2 2 = 2 ∧
    (2 : ℤ) ≠ 0 := by
  decide

/-- C2 (amended): if two zero-crossing pair indices in the scan window are
at exactly equal absolute distance from the target and no crossing in the
window is strictly closer, `findNearestZeroCross` returns the lower of the
two indices (tie broken by first-found in ascending scan order, since a
candidate replaces the best only on strictly smaller distance). -/
theorem C2_tie_lower_index (samples : List ℚ) (t r i j : ℤ)
    (hiw1 : zcWindowLo t r ≤ i) (hiw2 : i ≤ zcWindowHi samples.length t r)
    (hjw1 : zcWindowLo t r ≤ j) (hjw2 : j ≤ zcWindowHi samples.length t r)
    (hij : i < j)
    (hci : crossAtPair samples i = true) (hcj : crossAtPair samples j = true)
    (heq : |i - t| = |j - t|)
    (hmin : ∀ k, zcWindowLo t r ≤ k → k ≤ zcWindowHi samples.length t r →
      crossAtPair samples k = true → |i - t| ≤ |k - t|) :
    findNearestZeroCross samples t r = i := by
  obtain ⟨hi0, -⟩ := max_le_iff.mp hiw1
  obtain ⟨hin, -⟩ := le_min_iff.mp hiw2
  have hn : ¬ samples.length < 2 := by omega
  have hd0 : (0 : ℤ) ≤ |i - t| := abs_nonneg _
  have habs_i := (abs_eq hd0).mp rfl
  have habs_j := (abs_eq hd0).mp heq.symm
  have hleast : ∀ k : ℤ, |k - t| = |i - t| → i ≤ k := by
    intro k hk
    have habs_k := (abs_eq hd0).mp hk
    rcases habs_i with h1 | h1 <;> rcases habs_j with h2 | h2 <;>
      rcases habs_k with h3 | h3 <;> omega
  rw [findNearestZeroCross, if_neg hn,
    intRange_eq_append hiw1 (by omega), intRange_cons hiw2,
    List.foldl_append, List.foldl_cons]
  have hinv := foldl_zcStep_inv samples t (zcWindowLo t r) (i - 1)
    (intRange (zcWindowLo t r) (i - 1)) (t, none)
    (fun k hk => mem_intRange.mp hk) (Or.inl rfl)
  have hstep :
      zcStep samples t
        ((intRange (zcWindowLo t r) (i - 1)).foldl (zcStep samples t)
          (t, none)) i = (i, some |i - t|) := by
    rcases hinv with hinv | ⟨g1, g2, g3, g4⟩
    · rw [hinv, zcStep, if_pos hci]
      rfl
    · set b1 := (intRange (zcWindowLo t r) (i - 1)).foldl (zcStep samples t)
        (t, none)
      have hb1hi : b1.1 ≤ zcWindowHi samples.length t r := by omega
      have hge := hmin b1.1 g1 hb1hi g3
      have hbw : |i - t| < |b1.1 - t| := by
        rcases lt_or_eq_of_le hge with h | h
        · exact h
        · exact absurd (hleast b1.1 h.symm) (by omega)
      rw [zcStep, if_pos hci, if_pos]
      rw [g4]
      simp only [betterDist, decide_eq_true_eq]
      exact hbw
  rw [hstep]
  have hkeep := foldl_zcStep_keep samples t |i - t| (intRange (i + 1)
    (zcWindowHi samples.length t r)) (i, some |i - t|) rfl ?_
  · rw [hkeep]
  · intro k hk hck
    obtain ⟨hk1, hk2⟩ := mem_intRange.mp hk
    exact hmin k (by omega) hk2 hck

theorem C2_tie_lower_index_witness :
    findNearestZeroCross [0, 1, 1, 0] 1 4 = 0 := by
  refine C2_tie_lower_index [0, 1, 1, 0] 1 4 0 2 (by decide) (by decide)
    (by decide) (by decide) (by decide) (by decide) (by decide) (by decide) ?_
  intro k hk1 hk2 hck
  have h1 : (0 : ℤ) ≤ k := le_trans (by decide) hk1
  have h2 : k ≤ 2 := le_trans hk2 (by decide)
  interval_cases k
  · decide
  · exact absurd hck (by decide)
  · decide

theorem quantize_core_bounds {c : ℚ} (h1 : -1 ≤ c) (h2 : c ≤ 1) :
    -32768 ≤ qTrunc (if c < 0 then c * 32768 else c * 32767) ∧
      qTrunc (if c < 0 then c * 32768 else c * 32767) ≤ 32767 := by
  split
  case isTrue hc =>
    have hq1 : (-32768 : ℚ) ≤ c * 32768 := by nlinarith
    have hq2 : c * 32768 < 0 := by nlinarith
    rw [qTrunc, if_neg (not_le.mpr hq2)]
    have hf1 : ⌊-(c * 32768)⌋ ≤ 32768 := by
      have hcast : (⌊-(c * 32768)⌋ : ℚ) ≤ 32768 :=
        le_trans (Int.floor_le _) (by linarith)
      exact_mod_cast hcast
    have hf2 : 0 ≤ ⌊-(c * 32768)⌋ := Int.floor_nonneg.mpr (by linarith)
    omega
  case isFalse hc =>
    have hc0 : 0 ≤ c := not_lt.mp hc
    have hq1 : (0 : ℚ) ≤ c * 32767 := by positivity
    have hq2 : c * 32767 ≤ 32767 := by nlinarith
    rw [qTrunc, if_pos hq1]
    have hf1 : ⌊c * 32767⌋ ≤ 32767 := by
      have hcast : (⌊c * 32767⌋ : ℚ) ≤ 32767 :=
        le_trans (Int.floor_le _) hq2
      exact_mod_cast hcast
    have hf2 : 0 ≤ ⌊c * 32767⌋ := Int.floor_nonneg.mpr hq1
    omega

theorem toInt16_eq_self {z : ℤ} (h1 : -32768 ≤ z) (h2 : z ≤ 32767) :
    toInt16 z = z := by
  rw [toInt16]
  split
  · omega
  · omega

/-- Unfolding of the quantizer at a non-NaN sample. -/
theorem quantizeSample_some (x : ℚ) :
    quantizeSample (some x) =
      toInt16 (qTrunc (if max (-1) (min 1 x) < 0 then
        max (-1) (min 1 x) * 32768 else max (-1) (min 1 x) * 32767)) := rfl

theorem clamp_bounds (x : ℚ) :
    -1 ≤ max (-1) (min 1 x) ∧ max (-1) (min 1 x) ≤ 1 :=
  ⟨le_max_left _ _, max_le (by norm_num) (min_le_left _ _)⟩

/-- C3: mono float to 16-bit PCM quantization first clamps the sample to
[-1, 1], then multiplies negative values by 32768 and non-negative values
by 32767, truncating to a 16-bit signed integer; 1 maps to 32767, -1 maps
to -32768 and 0 maps to 0. -/
theorem C3_quantizer_clamp_scale :
    (∀ x : ℚ, quantizeSample (some x) = quantizeSpecC3 x) ∧
    quantizeSample (some 1) = 32767 ∧
    quantizeSample (some (-1)) = -32768 ∧
    quantizeSample (some 0) = 0 := by
  refine ⟨?_, ?_, ?_, ?_⟩
  · intro x
    obtain ⟨h1, h2⟩ := clamp_bounds x
    obtain ⟨hb1, hb2⟩ := quantize_core_bounds h1 h2
    rw [quantizeSample_some, toInt16_eq_self hb1 hb2, quantizeSpecC3]
    exact apply_ite qTrunc _ _ _
  · rw [quantizeSample_some]
    have hm : max (-1 : ℚ) (min 1 1) = 1 := by norm_num
    rw [hm, if_neg (by norm_num : ¬ (1 : ℚ) < 0), one_mul, qTrunc,
      if_pos (by norm_num : (0 : ℚ) ≤ 32767),
      show ⌊(32767 : ℚ)⌋ = 32767 by norm_num]
    decide
  · rw [quantizeSample_some]
    have hm : max (-1 : ℚ) (min 1 (-1)) = -1 := by norm_num
    rw [hm, if_pos (by norm_num : (-1 : ℚ) < 0), neg_one_mul, qTrunc,
      if_neg (by norm_num : ¬ (0 : ℚ) ≤ -32768), neg_neg,
      show ⌊(32768 : ℚ)⌋ = 32768 by norm_num]
    decide
  · rw [quantizeSample_some]
    have hm : max (-1 : ℚ) (min 1 0) = 0 := by norm_num
    rw [hm, if_neg (by norm_num : ¬ (0 : ℚ) < 0), zero_mul, qTrunc,
      if_pos le_rfl, Int.floor_zero]
    decide

/-- C10: for every float sample, finite or NaN, the PCM quantizer lands in
the signed 16-bit range [-32768, 32767]; samples above 1 saturate to
32767, samples below -1 saturate to -32768, and NaN maps to 0, so the
Int16Array store never wraps. -/
theorem C10_quantizer_safe (s : Option ℚ) :
    (-32768 ≤ quantizeSample s ∧ quantizeSample s ≤ 32767) ∧
    quantizeSample none = 0 ∧
    (∀ x : ℚ, s = some x → 1 < x → quantizeSample s = 32767) ∧
    (∀ x : ℚ, s = some x → x < -1 → quantizeSample s = -32768) := by
  refine ⟨?_, by decide, ?_, ?_⟩
  · cases s with
    | none => exact ⟨by decide, by decide⟩
    | some x =>
      obtain ⟨h1, h2⟩ := clamp_bounds x
      obtain ⟨hb1, hb2⟩ := quantize_core_bounds h1 h2
      rw [quantizeSample_some, toInt16_eq_self hb1 hb2]
      exact ⟨hb1, hb2⟩
  · rintro x rfl hx
    have hmin : min 1 x = 1 := min_eq_left (le_of_lt hx)
    have hmax : max (-1 : ℚ) (min 1 x) = 1 := by
      rw [hmin]
      exact max_eq_right (by norm_num)
    rw [quantizeSample_some, hmax, if_neg (by norm_num : ¬ (1 : ℚ) < 0),
      one_mul, qTrunc, if_pos (by norm_num : (0 : ℚ) ≤ 32767),
      show ⌊(32767 : ℚ)⌋ = 32767 by norm_num]
    decide
  · rintro x rfl hx
    have hmin : min 1 x = x := min_eq_right (by linarith)
    have hmax : max (-1 : ℚ) (min 1 x) = -1 := by
      rw [hmin]
      exact max_eq_left (le_of_lt hx)
    rw [quantizeSample_some, hmax, if_pos (by norm_num : (-1 : ℚ) < 0),
      neg_one_mul, qTrunc, if_neg (by norm_num : ¬ (0 : ℚ) ≤ -32768), neg_neg,
      show ⌊(32768 : ℚ)⌋ = 32768 by norm_num]
    decide

theorem C10_quantizer_safe_witness :
    quantizeSample (some 2) = 32767 ∧
    quantizeSample (some (-3)) = -32768 :=
  ⟨(C10_quantizer_safe (some 2)).2.2.1 2 rfl (by norm_num),
   (C10_quantizer_safe (some (-3))).2.2.2 (-3) rfl (by norm_num)⟩

theorem getD_take_drop (c : List ℚ) (s len i : ℕ) (hi : i < len) :
    ((c.drop s).take len).getD i 0 = c.getD (s + i) 0 := by
  rw [List.getD_eq_getElem?_getD, List.getD_eq_getElem?_getD,
    List.getElem?_take, if_pos hi, List.getElem?_drop]

theorem foldl_add_eq {α : Type} (g : α → ℚ) (w : ℚ) :
    ∀ l : List α, (∀ c ∈ l, g c = w) → ∀ a0 : ℚ,
      l.foldl (fun a c => a + g c) a0 = a0 + l.length * w := by
  intro l
  induction l with
  | nil => intro h a0; simp
  | cons x xs ih =>
    intro h a0
    rw [List.foldl_cons, ih (fun c hc => h c (List.mem_cons_of_mem _ hc)),
      h x (List.mem_cons_self _ _), List.length_cons]
    push_cast
    ring

/-- C6: on a single-channel buffer and a valid index range, the downmix is
exactly the source slice: length endIndex - startIndex and elementwise
identical values, with no scaling applied. -/
theorem C6_downmix_single_channel (c : List ℚ) (startSample endSample : ℕ)
    (h1 : startSample ≤ endSample) (h2 : endSample ≤ c.length) :
    extractMonoSamples [c] startSample endSample =
      (c.drop startSample).take (endSample - startSample) ∧
    (extractMonoSamples [c] startSample endSample).length =
      endSample - startSample := by
  have hlen : ((c.drop startSample).take (endSample - startSample)).length
      = endSample - startSample := by
    rw [List.length_take, List.length_drop]
    omega
  have heq0 : extractMonoSamples [c] startSample endSample =
      (c.drop startSample).take (endSample - startSample) ++
        List.replicate ((endSample - startSample) -
          ((c.drop startSample).take (endSample - startSample)).length) 0 :=
    rfl
  have heq : extractMonoSamples [c] startSample endSample =
      (c.drop startSample).take (endSample - startSample) := by
    rw [heq0, hlen, Nat.sub_self, List.replicate_zero, List.append_nil]
  exact ⟨heq, by rw [heq, hlen]⟩

theorem C6_downmix_single_channel_witness :
    extractMonoSamples [[1, 2, 3]] 1 3 = [2, 3] :=
  ((C6_downmix_single_channel [1, 2, 3] 1 3 (by decide) (by decide)).1).trans
    (by decide)

theorem rne_low (n : ℚ) (m : ℤ) (hm : ⌊n⌋ = m) (h : n - (m : ℚ) < 1 / 2) :
    roundNearestEven n = m := by
  rw [roundNearestEven, hm, if_pos h]

theorem rne_high (n : ℚ) (m : ℤ) (hm : ⌊n⌋ = m) (h : 1 / 2 < n - (m : ℚ)) :
    roundNearestEven n = m + 1 := by
  rw [roundNearestEven, hm, if_neg (by linarith), if_pos h]

theorem rne_tie_odd (n : ℚ) (m : ℤ) (hm : ⌊n⌋ = m) (h : n - (m : ℚ) = 1 / 2)
    (hodd : m % 2 = 1) : roundNearestEven n = m + 1 := by
  rw [roundNearestEven, hm, if_neg (by rw [h]; norm_num),
    if_neg (by rw [h]; norm_num), if_neg (by omega)]

theorem int_log_eq_of_bounds {x : ℚ} {l : ℤ} (hx : 0 < x)
    (h1 : (2 : ℚ) ^ l ≤ x) (h2 : x < 2 ^ (l + 1)) : Int.log 2 x = l := by
  have h1a : ((2 : ℕ) : ℚ) ^ l ≤ x := by exact_mod_cast h1
  have h2a : x < ((2 : ℕ) : ℚ) ^ (l + 1) := by exact_mod_cast h2
  have ha := (Int.zpow_le_iff_le_log (by norm_num) hx).mp h1a
  have hb := (Int.lt_zpow_iff_log_lt (by norm_num) hx).mp h2a
  omega

theorem rnd_pos (p : ℕ) (x : ℚ) (hx : 0 < x) :
    rnd p x =
      (roundNearestEven (x / 2 ^ (Int.log 2 x - ((p : ℤ) - 1))) : ℚ) *
        2 ^ (Int.log 2 x - ((p : ℤ) - 1)) := by
  rw [rnd, if_neg hx.ne', abs_of_pos hx, if_neg (not_lt.mpr hx.le), one_mul]

/-- C5 counterexample: the claim promises that the downmix of identical
channels is exactly v with no drift, but under the program's
floating-point semantics five channels holding the float32 value 29
average to 15204351 / 2 ^ 19, which is 28.999998..., one float32 unit in
the last place below 29.  The eleven rounding steps below follow an IEEE
754 evaluation of the accumulation loop bit for bit (the tie step of
iteration 2 exercises round-to-even), so the program violates the
claimed exactness. -/
theorem C5_downmix_drift_counterexample :
    downmixCellFloat 5 [29, 29, 29, 29, 29] = 15204351 / 2 ^ 19 ∧
    downmixCellFloat 5 [29, 29, 29, 29, 29] ≠ 29 := by
  have hq : rnd 53 ((29 : ℚ) / ((5 : ℕ) : ℚ)) = 6530219459687219 / 2 ^ 50 := by
    simp only [Nat.cast_ofNat]
    rw [rnd_pos 53 ((29 : ℚ) / (5 : ℚ)) (by norm_num),
      show Int.log 2 ((29 : ℚ) / (5 : ℚ)) = 2 from
        int_log_eq_of_bounds (by norm_num) (by norm_num) (by norm_num)]
    simp only [Nat.cast_ofNat]
    rw [show (2 : ℤ) - ((53 : ℤ) - 1) = -50 from by norm_num,
      rne_low ((29 : ℚ) / (5 : ℚ) / 2 ^ (-50 : ℤ)) 6530219459687219 (by norm_num) (by norm_num)]
    push_cast
    norm_num
  have h2 : rnd 53 ((6530219459687219 : ℚ) / 2 ^ 50) = 6530219459687219 / 2 ^ 50 := by
    rw [rnd_pos 53 ((6530219459687219 : ℚ) / 2 ^ 50) (by norm_num),
      show Int.log 2 ((6530219459687219 : ℚ) / 2 ^ 50) = 2 from
        int_log_eq_of_bounds (by norm_num) (by norm_num) (by norm_num)]
    simp only [Nat.cast_ofNat]
    rw [show (2 : ℤ) - ((53 : ℤ) - 1) = -50 from by norm_num,
      rne_low (((6530219459687219 : ℚ) / 2 ^ 50) / 2 ^ (-50 : ℤ)) 6530219459687219 (by norm_num) (by norm_num)]
    push_cast
    norm_num
  have h3 : rnd 24 ((6530219459687219 : ℚ) / 2 ^ 50) = 6081741 / 2 ^ 20 := by
    rw [rnd_pos 24 ((6530219459687219 : ℚ) / 2 ^ 50) (by norm_num),
      show Int.log 2 ((6530219459687219 : ℚ) / 2 ^ 50) = 2 from
        int_log_eq_of_bounds (by norm_num) (by norm_num) (by norm_num)]
    simp only [Nat.cast_ofNat]
    rw [show (2 : ℤ) - ((24 : ℤ) - 1) = -21 from by norm_num,
      rne_high (((6530219459687219 : ℚ) / 2 ^ 50) / 2 ^ (-21 : ℤ)) 12163481 (by norm_num) (by norm_num)]
    push_cast
    norm_num
  have h4 : rnd 53 ((6081741 : ℚ) / 2 ^ 20 + 6530219459687219 / 2 ^ 50) = 3265109783530701 / 2 ^ 48 := by
    rw [rnd_pos 53 ((6081741 : ℚ) / 2 ^ 20 + 6530219459687219 / 2 ^ 50) (by norm_num),
      show Int.log 2 ((6081741 : ℚ) / 2 ^ 20 + 6530219459687219 / 2 ^ 50) = 3 from
        int_log_eq_of_bounds (by norm_num) (by norm_num) (by norm_num)]
    simp only [Nat.cast_ofNat]
    rw [show (3 : ℤ) - ((53 : ℤ) - 1) = -49 from by norm_num,
      rne_tie_odd (((6081741 : ℚ) / 2 ^ 20 + 6530219459687219 / 2 ^ 50) / 2 ^ (-49 : ℤ)) 6530219567061401 (by norm_num) (by norm_num) (by norm_num)]
    push_cast
    norm_num
  have h5 : rnd 24 ((3265109783530701 : ℚ) / 2 ^ 48) = 6081741 / 2 ^ 19 := by
    rw [rnd_pos 24 ((3265109783530701 : ℚ) / 2 ^ 48) (by norm_num),
      show Int.log 2 ((3265109783530701 : ℚ) / 2 ^ 48) = 3 from
        int_log_eq_of_bounds (by norm_num) (by norm_num) (by norm_num)]
    simp only [Nat.cast_ofNat]
    rw [show (3 : ℤ) - ((24 : ℤ) - 1) = -20 from by norm_num,
      rne_high (((3265109783530701 : ℚ) / 2 ^ 48) / 2 ^ (-20 : ℤ)) 12163481 (by norm_num) (by norm_num)]
    push_cast
    norm_num
  have h6 : rnd 53 ((6081741 : ℚ) / 2 ^ 19 + 6530219459687219 / 2 ^ 50) = 4897664702139597 / 2 ^ 48 := by
    rw [rnd_pos 53 ((6081741 : ℚ) / 2 ^ 19 + 6530219459687219 / 2 ^ 50) (by norm_num),
      show Int.log 2 ((6081741 : ℚ) / 2 ^ 19 + 6530219459687219 / 2 ^ 50) = 4 from
        int_log_eq_of_bounds (by norm_num) (by norm_num) (by norm_num)]
    simp only [Nat.cast_ofNat]
    rw [show (4 : ℤ) - ((53 : ℤ) - 1) = -48 from by norm_num,
      rne_high (((6081741 : ℚ) / 2 ^ 19 + 6530219459687219 / 2 ^ 50) / 2 ^ (-48 : ℤ)) 4897664702139596 (by norm_num) (by norm_num)]
    push_cast
    norm_num
  have h7 : rnd 24 ((4897664702139597 : ℚ) / 2 ^ 48) = 9122611 / 2 ^ 19 := by
    rw [rnd_pos 24 ((4897664702139597 : ℚ) / 2 ^ 48) (by norm_num),
      show Int.log 2 ((4897664702139597 : ℚ) / 2 ^ 48) = 4 from
        int_log_eq_of_bounds (by norm_num) (by norm_num) (by norm_num)]
    simp only [Nat.cast_ofNat]
    rw [show (4 : ℤ) - ((24 : ℤ) - 1) = -19 from by norm_num,
      rne_low (((4897664702139597 : ℚ) / 2 ^ 48) / 2 ^ (-19 : ℤ)) 9122611 (by norm_num) (by norm_num)]
    push_cast
    norm_num
  have h8 : rnd 53 ((9122611 : ℚ) / 2 ^ 19 + 6530219459687219 / 2 ^ 50) = 6530219352313037 / 2 ^ 48 := by
    rw [rnd_pos 53 ((9122611 : ℚ) / 2 ^ 19 + 6530219459687219 / 2 ^ 50) (by norm_num),
      show Int.log 2 ((9122611 : ℚ) / 2 ^ 19 + 6530219459687219 / 2 ^ 50) = 4 from
        int_log_eq_of_bounds (by norm_num) (by norm_num) (by norm_num)]
    simp only [Nat.cast_ofNat]
    rw [show (4 : ℤ) - ((53 : ℤ) - 1) = -48 from by norm_num,
      rne_high (((9122611 : ℚ) / 2 ^ 19 + 6530219459687219 / 2 ^ 50) / 2 ^ (-48 : ℤ)) 6530219352313036 (by norm_num) (by norm_num)]
    push_cast
    norm_num
  have h9 : rnd 24 ((6530219352313037 : ℚ) / 2 ^ 48) = 12163481 / 2 ^ 19 := by
    rw [rnd_pos 24 ((6530219352313037 : ℚ) / 2 ^ 48) (by norm_num),
      show Int.log 2 ((6530219352313037 : ℚ) / 2 ^ 48) = 4 from
        int_log_eq_of_bounds (by norm_num) (by norm_num) (by norm_num)]
    simp only [Nat.cast_ofNat]
    rw [show (4 : ℤ) - ((24 : ℤ) - 1) = -19 from by norm_num,
      rne_low (((6530219352313037 : ℚ) / 2 ^ 48) / 2 ^ (-19 : ℤ)) 12163481 (by norm_num) (by norm_num)]
    push_cast
    norm_num
  have h10 : rnd 53 ((12163481 : ℚ) / 2 ^ 19 + 6530219459687219 / 2 ^ 50) = 8162774002486477 / 2 ^ 48 := by
    rw [rnd_pos 53 ((12163481 : ℚ) / 2 ^ 19 + 6530219459687219 / 2 ^ 50) (by norm_num),
      show Int.log 2 ((12163481 : ℚ) / 2 ^ 19 + 6530219459687219 / 2 ^ 50) = 4 from
        int_log_eq_of_bounds (by norm_num) (by norm_num) (by norm_num)]
    simp only [Nat.cast_ofNat]
    rw [show (4 : ℤ) - ((53 : ℤ) - 1) = -48 from by norm_num,
      rne_high (((12163481 : ℚ) / 2 ^ 19 + 6530219459687219 / 2 ^ 50) / 2 ^ (-48 : ℤ)) 8162774002486476 (by norm_num) (by norm_num)]
    push_cast
    norm_num
  have h11 : rnd 24 ((8162774002486477 : ℚ) / 2 ^ 48) = 15204351 / 2 ^ 19 := by
    rw [rnd_pos 24 ((8162774002486477 : ℚ) / 2 ^ 48) (by norm_num),
      show Int.log 2 ((8162774002486477 : ℚ) / 2 ^ 48) = 4 from
        int_log_eq_of_bounds (by norm_num) (by norm_num) (by norm_num)]
    simp only [Nat.cast_ofNat]
    rw [show (4 : ℤ) - ((24 : ℤ) - 1) = -19 from by norm_num,
      rne_low (((8162774002486477 : ℚ) / 2 ^ 48) / 2 ^ (-19 : ℤ)) 15204351 (by norm_num) (by norm_num)]
    push_cast
    norm_num
  have hmain : downmixCellFloat 5 [29, 29, 29, 29, 29] = 15204351 / 2 ^ 19 := by
    simp only [downmixCellFloat, List.foldl_cons, List.foldl_nil]
    simp only [hq]
    rw [zero_add]
    simp only [h2, h3, h4, h5, h6, h7, h8, h9, h10, h11]
  exact ⟨hmain, by rw [hmain]; norm_num⟩

/-- C5 (amended): when every one of N >= 2 channels holds the value v at
every position and the index range is valid, the downmix average in exact
arithmetic is exactly v at every output position: the channel-major
accumulation adds N copies of v / N, which cancels exactly.  This is the
ideal-arithmetic content of the claim; the program rounds every partial
result of the accumulation through a Float32Array and can leave the
stored average one unit in the last place away from v, as the drift
counterexample above shows, so the program itself guarantees exactness
only up to float32 rounding. -/
theorem C5_downmix_identical_channels (channels : List (List ℚ)) (v : ℚ)
    (startSample endSample : ℕ) (hN : 2 ≤ channels.length)
    (hlen : ∀ c ∈ channels, endSample ≤ c.length)
    (hval : ∀ c ∈ channels, ∀ p, p < c.length → c.getD p 0 = v)
    (h1 : startSample ≤ endSample) :
    ∀ i, i < endSample - startSample →
      (extractMonoSamples channels startSample endSample).getD i 0 = v := by
  intro i hi
  have hne : channels.length ≠ 1 := by omega
  have hx : (extractMonoSamples channels startSample endSample).getD i 0 =
      channels.foldl
        (fun acc c => acc +
          ((c.drop startSample).take (endSample - startSample)).getD i 0 /
            (channels.length : ℚ)) 0 := by
    rw [extractMonoSamples, if_neg hne, List.getD_eq_getElem?_getD,
      List.getElem?_map, List.getElem?_range hi]
    rfl
  have hterm : ∀ c ∈ channels,
      (fun c : List ℚ =>
        ((c.drop startSample).take (endSample - startSample)).getD i 0 /
          (channels.length : ℚ)) c = v / (channels.length : ℚ) := by
    intro c hc
    simp only
    rw [getD_take_drop c startSample _ i hi,
      hval c hc (startSample + i) (by have := hlen c hc; omega)]
  have hfold := foldl_add_eq
    (fun c : List ℚ =>
      ((c.drop startSample).take (endSample - startSample)).getD i 0 /
        (channels.length : ℚ))
    (v / (channels.length : ℚ)) channels hterm 0
  have hne2 : (channels.length : ℚ) ≠ 0 :=
    Nat.cast_ne_zero.mpr (by omega)
  have hfinal : (0 : ℚ) + (channels.length : ℚ) *
      (v / (channels.length : ℚ)) = v := by
    rw [zero_add, mul_comm, div_mul_cancel₀ v hne2]
  rw [hx]
  exact hfold.trans hfinal

theorem C5_downmix_identical_channels_witness :
    (extractMonoSamples [[3, 3], [3, 3]] 0 2).getD 0 0 = 3 ∧
    (extractMonoSamples [[3, 3], [3, 3]] 0 2).getD 1 0 = 3 :=
  ⟨C5_downmix_identical_channels [[3, 3], [3, 3]] 3 0 2 (by decide)
      (by decide) (by decide) (by decide) 0 (by decide),
   C5_downmix_identical_channels [[3, 3], [3, 3]] 3 0 2 (by decide)
      (by decide) (by decide) (by decide) 1 (by decide)⟩

theorem length_flatten_pairs (l : List (List ℕ)) (h : ∀ x ∈ l, x.length = 2) :
    l.flatten.length = 2 * l.length := by
  induction l with
  | nil => rfl
  | cons x xs ih =>
    rw [List.flatten_cons, List.length_append, h x (List.mem_cons_self _ _),
      ih fun y hy => h y (List.mem_cons_of_mem _ hy), List.length_cons]
    ring

/-- C4: for every mono buffer of length k and sampleRate > 0 the writer
emits exactly 44 + 2k bytes in the exact little-endian RIFF/WAVE layout:
RIFF tag, total size 36 + 2k, WAVE and fmt tags, subchunk size 16, PCM
format 1, one channel, the sample rate, byte rate 2 * sampleRate, block
align 2, 16 bits per sample, data tag, data size 2k, then the quantized
samples in order.  Determinism is immediate: the model is a function. -/
theorem C4_wav_layout (samples : List ℚ) (sampleRate : ℕ)
    (hr : 0 < sampleRate) :
    (monoFloatToWavBytes samples sampleRate).length =
      44 + 2 * samples.length ∧
    monoFloatToWavBytes samples sampleRate =
      [0x52, 0x49, 0x46, 0x46] ++ le32 (36 + samples.length * 2) ++
      [0x57, 0x41, 0x56, 0x45] ++
      [0x66, 0x6D, 0x74, 0x20] ++ le32 16 ++ le16 1 ++ le16 1 ++
      le32 sampleRate ++ le32 (sampleRate * 2) ++ le16 2 ++ le16 16 ++
      [0x64, 0x61, 0x74, 0x61] ++ le32 (samples.length * 2) ++
      (samples.map fun s => int16le (quantizeSample (some s))).flatten := by
  have hmap : (samples.map fun s => quantizeSample (some s)).map int16le =
      samples.map fun s => int16le (quantizeSample (some s)) := by
    rw [List.map_map]
    rfl
  have hlayout : monoFloatToWavBytes samples sampleRate =
      [0x52, 0x49, 0x46, 0x46] ++ le32 (36 + samples.length * 2) ++
      [0x57, 0x41, 0x56, 0x45] ++
      [0x66, 0x6D, 0x74, 0x20] ++ le32 16 ++ le16 1 ++ le16 1 ++
      le32 sampleRate ++ le32 (sampleRate * 2) ++ le16 2 ++ le16 16 ++
      [0x64, 0x61, 0x74, 0x61] ++ le32 (samples.length * 2) ++
      (samples.map fun s => int16le (quantizeSample (some s))).flatten := by
    rw [monoFloatToWavBytes]
    rw [hmap, List.length_map]
    rfl
  refine ⟨?_, hlayout⟩
  rw [hlayout]
  have hj : ((samples.map fun s =>
      int16le (quantizeSample (some s))).flatten).length
      = 2 * samples.length := by
    rw [length_flatten_pairs, List.length_map]
    intro x hx
    obtain ⟨y, -, rfl⟩ := List.mem_map.mp hx
    rfl
  simp only [List.length_append, hj, List.length_cons, List.length_nil, le32,
    le16]
  try omega

theorem C4_wav_layout_witness :
    (monoFloatToWavBytes [1, -1 / 2] 8000).length = 48 := by
  have h := (C4_wav_layout [1, -1 / 2] 8000 (by decide)).1
  simpa using h

theorem adjustedRange_twoFrames :
    adjustedRange ⟨1, [[1, 1]]⟩ ⟨2, 3, 0, "wav", 3⟩ = (1, 1) := by
  have h1 : rawIndex ⟨1, [[1, 1]]⟩ 2 = 1 := by
    rw [rawIndex]
    norm_num [DecodedAudio.frameCount]
  have h2 : rawIndex ⟨1, [[1, 1]]⟩ 3 = 1 := by
    rw [rawIndex]
    norm_num [DecodedAudio.frameCount]
  show (findNearestZeroCross [1, 1] (rawIndex ⟨1, [[1, 1]]⟩ 2) 0,
      findNearestZeroCross [1, 1] (rawIndex ⟨1, [[1, 1]]⟩ 3) 0) = (1, 1)
  rw [h1, h2]
  decide

theorem adjustedRange_threeFrames :
    adjustedRange ⟨1, [[1, 1, 1]]⟩ ⟨2, 3, 0, "wav", 3⟩ = (2, 2) := by
  have h1 : rawIndex ⟨1, [[1, 1, 1]]⟩ 2 = 2 := by
    rw [rawIndex]
    norm_num [DecodedAudio.frameCount]
  have h2 : rawIndex ⟨1, [[1, 1, 1]]⟩ 3 = 2 := by
    rw [rawIndex]
    norm_num [DecodedAudio.frameCount]
  show (findNearestZeroCross [1, 1, 1] (rawIndex ⟨1, [[1, 1, 1]]⟩ 2) 0,
      findNearestZeroCross [1, 1, 1] (rawIndex ⟨1, [[1, 1, 1]]⟩ 3) 0) = (2, 2)
  rw [h1, h2]
  decide

/-- C7 counterexample: two decoded inputs with the same file name but
different zero-cross-adjusted index pairs, (1, 1) against (2, 2), are
both rejected with the identical failure line, so the emitted Failure
result does not report the adjusted indices. -/
theorem C7_reject_counterexample :
    runOneCaught ⟨none, none⟩ ⟨2, 3, 0, "wav", 3⟩
        ⟨"a.wav", Except.ok ⟨1, [[1, 1]]⟩⟩ =
      RunResult.failure (rejectLine "a.wav") ∧
    runOneCaught ⟨none, none⟩ ⟨2, 3, 0, "wav", 3⟩
        ⟨"a.wav", Except.ok ⟨1, [[1, 1, 1]]⟩⟩ =
      RunResult.failure (rejectLine "a.wav") ∧
    (adjustedRange ⟨1, [[1, 1]]⟩ ⟨2, 3, 0, "wav", 3⟩).2 ≤
      (adjustedRange ⟨1, [[1, 1]]⟩ ⟨2, 3, 0, "wav", 3⟩).1 ∧
    (adjustedRange ⟨1, [[1, 1, 1]]⟩ ⟨2, 3, 0, "wav", 3⟩).2 ≤
      (adjustedRange ⟨1, [[1, 1, 1]]⟩ ⟨2, 3, 0, "wav", 3⟩).1 ∧
    adjustedRange ⟨1, [[1, 1]]⟩ ⟨2, 3, 0, "wav", 3⟩ ≠
      adjustedRange ⟨1, [[1, 1, 1]]⟩ ⟨2, 3, 0, "wav", 3⟩ := by
  have hpA : processSingleFile ⟨none, none⟩
      ⟨"a.wav", Except.ok ⟨1, [[1, 1]]⟩⟩ ⟨2, 3, 0, "wav", 3⟩ =
      Except.ok (ProcOutcome.loggedError (rejectLine "a.wav")) := by
    simp [processSingleFile, adjustedRange_twoFrames]
  have hpB : processSingleFile ⟨none, none⟩
      ⟨"a.wav", Except.ok ⟨1, [[1, 1, 1]]⟩⟩ ⟨2, 3, 0, "wav", 3⟩ =
      Except.ok (ProcOutcome.loggedError (rejectLine "a.wav")) := by
    simp [processSingleFile, adjustedRange_threeFrames]
  refine ⟨?_, ?_, ?_, ?_, ?_⟩
  · rw [runOneCaught, hpA]
  · rw [runOneCaught, hpB]
  · rw [adjustedRange_twoFrames]
  · rw [adjustedRange_threeFrames]
  · rw [adjustedRange_twoFrames, adjustedRange_threeFrames]
    decide

/-- C7 (amended): when the zero-cross-adjusted end index does not exceed
the adjusted start index, the pipeline rejects the file: it emits a
Failure result carrying the fixed range-rejection line that names the
file (the adjusted indices are not part of the message), performs no
downmix or encode (the result is independent of the encoder services),
produces no output bytes, and the batch loop continues with the
remaining files. -/
theorem C7_reject_no_output (env env2 : Env) (file : FileInput)
    (buffer : DecodedAudio) (p : Params)
    (hdec : file.decoded = Except.ok buffer)
    (hrej : (adjustedRange buffer p).2 ≤ (adjustedRange buffer p).1) :
    runOneCaught env p file = RunResult.failure (rejectLine file.name) ∧
    runOneCaught env p file = runOneCaught env2 p file ∧
    (∀ n b, runOneCaught env p file ≠ RunResult.success n b) ∧
    (∀ rest, runBatch env (file :: rest) p =
      RunResult.failure (rejectLine file.name) :: runBatch env rest p) := by
  have hproc : ∀ e : Env, processSingleFile e file p =
      Except.ok (ProcOutcome.loggedError (rejectLine file.name)) := by
    intro e
    simp only [processSingleFile, hdec]
    rw [if_pos hrej]
  have h1 : runOneCaught env p file =
      RunResult.failure (rejectLine file.name) := by
    simp only [runOneCaught, hproc env]
  refine ⟨h1, ?_, ?_, ?_⟩
  · simp only [runOneCaught, hproc env, hproc env2]
  · intro n b
    rw [h1]
    exact fun h => RunResult.noConfusion h
  · intro rest
    simp only [runBatch, List.map_cons]
    rw [h1]

theorem C7_reject_no_output_witness :
    runOneCaught ⟨none, none⟩ ⟨2, 3, 0, "wav", 3⟩
        ⟨"b.wav", Except.ok ⟨1, [[1, 1]]⟩⟩ =
      RunResult.failure (rejectLine "b.wav") :=
  (C7_reject_no_output ⟨none, none⟩ ⟨some fun _ _ _ => [], some fun _ _ => []⟩
    ⟨"b.wav", Except.ok ⟨1, [[1, 1]]⟩⟩ ⟨1, [[1, 1]]⟩ ⟨2, 3, 0, "wav", 3⟩
    rfl (by rw [adjustedRange_twoFrames])).1

/-- C8: the batch loop yields exactly one result per input file, in input
order, and each result is a function of its own file alone; around any
single file f the loop processes the files before f, then f, then the
files after f, whatever result f produces, so one failing file cannot
abort or reorder the rest. -/
theorem C8_batch_isolation (env : Env) (p : Params) :
    (∀ files : List FileInput, (runBatch env files p).length = files.length) ∧
    (∀ files : List FileInput, ∀ i, i < files.length →
      (runBatch env files p).getD i (RunResult.failure "") =
        runOneCaught env p (files.getD i ⟨"", Except.error ""⟩)) ∧
    (∀ pre post : List FileInput, ∀ f : FileInput,
      runBatch env (pre ++ f :: post) p =
        runBatch env pre p ++
          runOneCaught env p f :: runBatch env post p) := by
  refine ⟨fun files => List.length_map _ _, ?_, ?_⟩
  · intro files i hi
    have hi2 : i < (runBatch env files p).length := by
      rw [runBatch, List.length_map]
      exact hi
    rw [List.getD_eq_getElem _ _ hi2, List.getD_eq_getElem _ _ hi]
    simp [runBatch]
  · intro pre post f
    simp [runBatch]

theorem C8_batch_isolation_witness :
    (runBatch ⟨none, none⟩
        [⟨"a.wav", Except.ok ⟨1, [[1, -1, 1]]⟩⟩,
         ⟨"b.wav", Except.error "decode failed"⟩,
         ⟨"c.wav", Except.ok ⟨1, [[1, -1, 1]]⟩⟩]
        ⟨0, 2, 0, "wav", 3⟩).length = 3 ∧
    (runBatch ⟨none, none⟩
        [⟨"a.wav", Except.ok ⟨1, [[1, -1, 1]]⟩⟩,
         ⟨"b.wav", Except.error "decode failed"⟩,
         ⟨"c.wav", Except.ok ⟨1, [[1, -1, 1]]⟩⟩]
        ⟨0, 2, 0, "wav", 3⟩).getD 1 (RunResult.failure "") =
      runOneCaught ⟨none, none⟩ ⟨0, 2, 0, "wav", 3⟩
        ⟨"b.wav", Except.error "decode failed"⟩ :=
  ⟨(C8_batch_isolation ⟨none, none⟩ ⟨0, 2, 0, "wav", 3⟩).1 _,
   by
    have h := (C8_batch_isolation ⟨none, none⟩ ⟨0, 2, 0, "wav", 3⟩).2.1
      [⟨"a.wav", Except.ok ⟨1, [[1, -1, 1]]⟩⟩,
       ⟨"b.wav", Except.error "decode failed"⟩,
       ⟨"c.wav", Except.ok ⟨1, [[1, -1, 1]]⟩⟩] 1 (by decide)
    simpa using h⟩

/-- C9: the handler validates globally before any file is processed: an
empty selection or endSeconds not strictly greater than startSeconds
aborts the whole batch with no per-file results; the quality parameter
defaults to 3 when unparseable and is clamped into [0, 10]; when the
validation passes, every file is processed with those parameters. -/
theorem C9_global_validation (env : Env) (files : List FileInput)
    (startSecP endSecP : Option ℚ) (radius : ℤ) (fmt : String)
    (qualityP : Option ℤ) :
    (files = [] →
      runHandler env files startSecP endSecP radius fmt qualityP = none) ∧
    (jsGt endSecP startSecP = false →
      runHandler env files startSecP endSecP radius fmt qualityP = none) ∧
    (qualityP = none → effectiveQuality qualityP = 3) ∧
    (0 ≤ effectiveQuality qualityP ∧ effectiveQuality qualityP ≤ 10) ∧
    (files ≠ [] → jsGt endSecP startSecP = true →
      runHandler env files startSecP endSecP radius fmt qualityP =
        some (runBatch env files
          ⟨startSecP.getD 0, endSecP.getD 0, radius, fmt,
            effectiveQuality qualityP⟩)) := by
  refine ⟨?_, ?_, ?_, ?_, ?_⟩
  · rintro rfl
    rfl
  · intro h
    by_cases he : files.isEmpty
    · rw [runHandler, if_pos he]
    · rw [runHandler, if_neg he, if_pos h]
  · rintro rfl
    decide
  · exact ⟨le_min (by norm_num) (le_max_left _ _), min_le_left _ _⟩
  · intro h1 h2
    rw [runHandler, if_neg, if_neg]
    · rw [h2]
      simp
    · simp [List.isEmpty_iff, h1]

theorem C9_global_validation_witness :
    runHandler ⟨none, none⟩ [⟨"a.wav", Except.error "x"⟩] (some 0) (some 1)
        0 "wav" none =
      some (runBatch ⟨none, none⟩ [⟨"a.wav", Except.error "x"⟩]
        ⟨0, 1, 0, "wav", 3⟩) ∧
    runHandler ⟨none, none⟩ [] (some 0) (some 1) 0 "wav" none = none :=
  ⟨(C9_global_validation ⟨none, none⟩ [⟨"a.wav", Except.error "x"⟩] (some 0)
      (some 1) 0 "wav" none).2.2.2.2 (List.cons_ne_nil _ _) (by decide),
   (C9_global_validation ⟨none, none⟩ [] (some 0) (some 1) 0 "wav"
      none).1 rfl⟩

end LoopAudio
